import Mathlib

/-!
Verification development for the plane-geodesic distance tool
(`src/main.cpp` of the gc-polyscope project).

The program slices a triangle mesh with a plane, collects the surface
points where mesh edges cross the plane, feeds them as sources to an
exact-geodesic propagator, reads back one distance per vertex, and can
export the resulting field to a text file.

Reals are modelled as rationals (`ℚ`); the C++ `double` arithmetic is
treated as exact. The exact-geodesic propagator itself lives in the
external geometry-central library (`GeodesicAlgorithmExact`), not in this
repository; it is modelled from the spec as a geodesic-distance oracle
together with a lowest-index-wins closest-source scan. Everything else is
translated directly from `src/main.cpp`.
-/

namespace GeoPlane

/-- 3D vector with rational coordinates, mirroring geometry-central's
`Vector3` as used by `main.cpp`. -/
structure Vector3 where
  x : ℚ
  y : ℚ
  z : ℚ
deriving DecidableEq

/-- Euclidean dot product, mirroring `dot(pos, planeNormal)`. -/
def dot (a b : Vector3) : ℚ := a.x * b.x + a.y * b.y + a.z * b.z

/-- A location on the surface, mirroring geometry-central's `SurfacePoint`
as constructed by `main.cpp`: either a vertex (`SurfacePoint vPoint(v)`)
or a point on an edge at parameter `t` (`SurfacePoint intersectionPoint(e, t)`).
Vertices and edges are identified by their indices. -/
inductive SurfacePoint where
  | vertex (v : ℕ)
  | edgePoint (e : ℕ) (t : ℚ)
deriving DecidableEq

/-- Mesh connectivity: the number of vertices and, per edge in traversal
order, the pair `(he.vertex(), he.twin().vertex())` of endpoint indices as
read off in `computeGeodesics`. -/
structure Mesh where
  nVertices : ℕ
  edges : List (ℕ × ℕ)
deriving DecidableEq

/-- Vertex positions (`geometry->inputVertexPositions`), indexed by vertex. -/
structure GeometryData where
  positions : List Vector3
deriving DecidableEq

/-- The origin, used as an out-of-range lookup default. -/
def vzero : Vector3 := ⟨0, 0, 0⟩

/-- The mutable globals of `main.cpp` that the two operations under study
read or write: the plane parameters and the stored per-vertex distances
(`currentGeodesicDistances`). -/
structure AppState where
  planeNormal : Vector3
  planeHeight : ℚ
  currentGeodesicDistances : List ℚ
deriving DecidableEq

/-- The fixed numerical tolerance `1e-10` of the crossing test in
`computeGeodesics`. -/
def planeTol : ℚ := 1 / 10 ^ 10

/-- Clamp to `[0,1]`: `std::max(0.0, std::min(1.0, t))`. -/
def clamp01 (t : ℚ) : ℚ := max 0 (min 1 t)

/-- Signed distance of a point to the plane: `dot(pos, planeNormal) - planeHeight`. -/
def signedDist (pn : Vector3) (ph : ℚ) (pos : Vector3) : ℚ := dot pos pn - ph

/-- The body of the edge loop of `computeGeodesics` (lines 84-107): for one
edge, either the emitted intersection `SurfacePoint` or nothing. -/
def edgeCrossing (geo : GeometryData) (pn : Vector3) (ph : ℚ) (eIdx : ℕ)
    (e : ℕ × ℕ) : Option SurfacePoint :=
  let pos1 := geo.positions.getD e.1 vzero
  let pos2 := geo.positions.getD e.2 vzero
  let dist1 := signedDist pn ph pos1
  let dist2 := signedDist pn ph pos2
  if dist1 * dist2 ≤ 0 ∧ |dist1 - dist2| > planeTol then
    some (SurfacePoint.edgePoint eIdx (clamp01 (dist1 / (dist1 - dist2))))
  else
    none

/-- The edge loop itself, carrying the running edge index. -/
def extractAux (geo : GeometryData) (pn : Vector3) (ph : ℚ) :
    ℕ → List (ℕ × ℕ) → List SurfacePoint
  | _, [] => []
  | i, e :: rest =>
    match edgeCrossing geo pn ph i e with
    | some sp => sp :: extractAux geo pn ph (i + 1) rest
    | none => extractAux geo pn ph (i + 1) rest

/-- The source extractor: all plane crossings of the mesh in edge traversal
order (`sourcePoints` of `computeGeodesics`). -/
def extractSources (m : Mesh) (geo : GeometryData) (pn : Vector3) (ph : ℚ) :
    List SurfacePoint :=
  extractAux geo pn ph 0 m.edges

/-- A geodesic-distance oracle: Modelled from the spec, this stands for the
exact geodesic distance between two surface points that the external
propagator (`GeodesicAlgorithmExact` of geometry-central, not part of this
repository) computes by window propagation. -/
def GeodesicOracle : Type := SurfacePoint → SurfacePoint → ℚ

/-- Scan of the indexed source list keeping the strictly smaller distance,
so the lowest index wins ties. -/
def closestSourceAux (d : GeodesicOracle) (p : SurfacePoint) :
    List SurfacePoint → ℕ → ℕ × ℚ → ℕ × ℚ
  | [], _, best => best
  | s :: rest, i, best =>
    closestSourceAux d p rest (i + 1) (if d p s < best.2 then (i, d p s) else best)

/-- Modelled from the spec: `closestSource` of the external propagator
(geometry-central's `GeodesicAlgorithmExact::closestSource`, not part of
this repository) returns the `(sourceIndex, distance)` pair minimising the
geodesic distance from the query point to a source, ties broken by lowest
source index; `none` when there are no sources. -/
def closestSource (d : GeodesicOracle) (sources : List SurfacePoint)
    (p : SurfacePoint) : Option (ℕ × ℚ) :=
  match sources with
  | [] => none
  | s :: rest => some (closestSourceAux d p rest 1 (0, d p s))

/-- The per-vertex readback loop of `computeGeodesics` (lines 119-124):
`distances[v] = geodesicAlg.closestSource(vPoint).second` for every vertex. -/
def computeDistances (d : GeodesicOracle) (m : Mesh)
    (sources : List SurfacePoint) : List ℚ :=
  (List.range m.nVertices).map fun v =>
    ((closestSource d sources (SurfacePoint.vertex v)).getD (0, 0)).2

/-- What `computeGeodesics` reports: the early-return warning when no edge
crosses the plane, or success with the number of edge intersection points. -/
inductive GeoOutcome where
  | warnedNoSources
  | computed (nSources : ℕ)
deriving DecidableEq

/-- `computeGeodesics` of `main.cpp`: extract the plane crossings; if none,
warn and return leaving the stored distances untouched; otherwise propagate
from the sources and store the per-vertex distances. -/
def computeGeodesics (d : GeodesicOracle) (m : Mesh) (geo : GeometryData)
    (st : AppState) : AppState × GeoOutcome :=
  let sourcePoints := extractSources m geo st.planeNormal st.planeHeight
  if sourcePoints.isEmpty then
    (st, GeoOutcome.warnedNoSources)
  else
    ({ st with currentGeodesicDistances := computeDistances d m sourcePoints },
     GeoOutcome.computed sourcePoints.length)

/-! ### Decimal rendering

`exportGeodesicDistances` prints the header reals with the stream's default
formatting (6 significant digits) and the per-vertex reals with
`std::fixed << std::setprecision(10)`. -/

/-- The ASCII digit character for `d < 10`. -/
def digitChar (d : ℕ) : Char := Char.ofNat (48 + d)

/-- Little-endian base-10 digits, by fuel so that it computes by kernel
reduction (`natDigitsAux n n` is `n`'s digit list; `[]` for `0`). -/
def natDigitsAux : ℕ → ℕ → List ℕ
  | 0, _ => []
  | _ + 1, 0 => []
  | fuel + 1, n + 1 => ((n + 1) % 10) :: natDigitsAux fuel ((n + 1) / 10)

/-- Little-endian base-10 digits of `n` (empty for `0`). -/
def natDigits (n : ℕ) : List ℕ := natDigitsAux n n

/-- The decimal rendering of a natural number as characters. -/
def natChars (n : ℕ) : List Char :=
  if n = 0 then ['0'] else ((natDigits n).reverse.map digitChar)

/-- The decimal rendering of a natural number. -/
def natStr (n : ℕ) : String := String.mk (natChars n)

/-- Left-pad a character list with zeros to length `k`. -/
def padZeros (k : ℕ) (cs : List Char) : List Char :=
  List.replicate (k - cs.length) '0' ++ cs

/-- The integer scaling behind fixed-point printing with 10 decimals:
the multiple of `10⁻¹⁰` nearest to `q`, as an integer numerator. -/
def rnd10Int (q : ℚ) : ℤ := round (q * 10 ^ 10)

/-- The value actually recorded by fixed-point printing with 10 decimals. -/
def rnd10 (q : ℚ) : ℚ := (rnd10Int q : ℚ) / 10 ^ 10

/-- Fixed-point rendering with 10 decimal digits, as characters: what
`outFile << std::fixed << std::setprecision(10) << q` writes. -/
def fixed10Chars (q : ℚ) : List Char :=
  let n := rnd10Int q
  let a := n.natAbs
  (if n < 0 then ['-'] else []) ++
    natChars (a / 10 ^ 10) ++
    '.' :: padZeros 10 ((natDigits (a % 10 ^ 10)).reverse.map digitChar)

/-- Fixed-point rendering with 10 decimal digits. -/
def fixed10 (q : ℚ) : String := String.mk (fixed10Chars q)

/-- Floor of the base-10 logarithm of a positive rational: the `e` with
`10^e ≤ a < 10^(e+1)`, computed from digit counts. -/
def ilog10 (a : ℚ) : ℤ :=
  if 1 ≤ a then
    ((natDigits (⌊a⌋).toNat).length : ℤ) - 1
  else
    let L := (natDigits (⌊a⁻¹⌋).toNat).length
    if 1 ≤ a * 10 ^ (L - 1) then -((L : ℤ) - 1) else -(L : ℤ)

/-- Round a positive rational to 6 significant digits: the pair `(m, e)`
with `m = round(a · 10^(5-e)) ∈ [10^5, 10^6)` and exponent `e`, carrying
over when rounding reaches `10^6`. -/
def sig6 (a : ℚ) : ℤ × ℤ :=
  let e := ilog10 a
  let m := round (a * (10 : ℚ) ^ ((5 : ℤ) - e))
  if m = 10 ^ 6 then (10 ^ 5, e + 1) else (m, e)

/-- Drop the trailing zeros of a fraction-digit rendering. -/
def dropTrailingZeros (cs : List Char) : List Char :=
  (cs.reverse.dropWhile (fun c => c = '0')).reverse

/-- Default `std::ostream` rendering of a real (as with `%g`, precision 6):
6 significant digits, trailing zeros stripped, fixed notation for exponents
in `[-4, 5]` and scientific notation (two-digit, signed exponent) outside.
This is how the header of the export file prints the plane normal and the
plane height, since `std::fixed` is only set afterwards. -/
def defaultFmtChars (q : ℚ) : List Char :=
  if q = 0 then ['0']
  else
    let sign : List Char := if q < 0 then ['-'] else []
    let me := sig6 |q|
    let ds := padZeros 6 ((natDigits me.1.natAbs).reverse.map digitChar)
    let e := me.2
    if e < -4 ∨ 6 ≤ e then
      let mant := ds.take 1 ++
        (match dropTrailingZeros (ds.drop 1) with
         | [] => []
         | frac => '.' :: frac)
      let esign : List Char := if e < 0 then ['-'] else ['+']
      sign ++ mant ++ 'e' :: esign ++ padZeros 2 (natChars e.natAbs)
    else if 0 ≤ e then
      let intPart := ds.take (e.toNat + 1)
      let frac := dropTrailingZeros (ds.drop (e.toNat + 1))
      sign ++ intPart ++ (match frac with | [] => [] | f => '.' :: f)
    else
      let frac := dropTrailingZeros (List.replicate (e.natAbs - 1) '0' ++ ds)
      sign ++ '0' :: '.' :: frac

/-- Default `std::ostream` rendering of a real, as a string. -/
def defaultFmt (q : ℚ) : String := String.mk (defaultFmtChars q)

/-! ### The export operation (`exportGeodesicDistances`, lines 37-74) -/

/-- The `#`-prefixed header lines and the blank separator line written by
`exportGeodesicDistances` (lines 49-56), before `std::fixed` is set. -/
def headerLines (pn : Vector3) (ph : ℚ) (nV : ℕ) : List String :=
  ["# Geodesic distances from plane",
   "# Plane normal: " ++ defaultFmt pn.x ++ " " ++ defaultFmt pn.y ++ " "
     ++ defaultFmt pn.z,
   "# Plane height: " ++ defaultFmt ph,
   "# Number of vertices: " ++ natStr nV,
   "#",
   "# Format: vertex_index x y z geodesic_distance",
   ""]

/-- One per-vertex line (lines 58-70): index, position, distance, the reals
fixed-point with 10 decimals. -/
def vertexLine (i : ℕ) (pos : Vector3) (dist : ℚ) : String :=
  natStr i ++ " " ++ fixed10 pos.x ++ " " ++ fixed10 pos.y ++ " "
    ++ fixed10 pos.z ++ " " ++ fixed10 dist

/-- All lines of the export file, in order. -/
def exportLines (m : Mesh) (geo : GeometryData) (st : AppState) : List String :=
  headerLines st.planeNormal st.planeHeight m.nVertices ++
    (List.range m.nVertices).map fun i =>
      vertexLine i (geo.positions.getD i vzero)
        (st.currentGeodesicDistances.getD i 0)

/-- The bytes of the export file: each line followed by a newline
(`std::endl`). -/
def fileContents (lines : List String) : String :=
  String.join (lines.map fun l => l ++ "\n")

/-- What `exportGeodesicDistances` does: warn (nothing computed yet), report
an open error, or write the file. -/
inductive ExportOutcome where
  | warnedNotComputed
  | errorOpenFailed
  | wrote (contents : String)
deriving DecidableEq

/-- `exportGeodesicDistances` of `main.cpp`: if no distances are stored,
warn and return before any file is opened; then, should opening fail
(`openOk = false`), report an error; otherwise write header and vertex
lines. The program state is never modified. -/
def exportGeodesicDistances (openOk : Bool) (m : Mesh) (geo : GeometryData)
    (st : AppState) : AppState × ExportOutcome :=
  if st.currentGeodesicDistances.length = 0 then
    (st, ExportOutcome.warnedNotComputed)
  else if openOk = false then
    (st, ExportOutcome.errorOpenFailed)
  else
    (st, ExportOutcome.wrote (fileContents (exportLines m geo st)))

/-! ### Parsing back the text format, for the round-trip property -/

/-- The numeric value of an ASCII digit character. -/
def charToDigit (c : Char) : Option ℕ :=
  if '0' ≤ c ∧ c ≤ '9' then some (c.toNat - 48) else none

/-- Big-endian accumulation of decimal digits. -/
def parseNatAux : List Char → ℕ → Option ℕ
  | [], acc => some acc
  | c :: rest, acc => (charToDigit c).bind fun d => parseNatAux rest (10 * acc + d)

/-- Parse a nonempty all-digit character list as a natural number. -/
def parseNat (cs : List Char) : Option ℕ :=
  if cs.isEmpty then none else parseNatAux cs 0

/-- Split a character list at a separator character. -/
def splitSepAux (sep : Char) : List Char → List Char → List (List Char)
  | [], acc => [acc.reverse]
  | c :: rest, acc =>
    if c = sep then acc.reverse :: splitSepAux sep rest []
    else splitSepAux sep rest (c :: acc)

/-- Split a character list at a separator character. -/
def splitSep (sep : Char) (cs : List Char) : List (List Char) :=
  splitSepAux sep cs []

/-- Parse an unsigned decimal: digits, optionally a point and more digits. -/
def parseUnsignedDecimal (cs : List Char) : Option ℚ :=
  match splitSep '.' cs with
  | [a] => (parseNat a).map fun i => (i : ℚ)
  | [a, b] =>
    (parseNat a).bind fun i =>
      (parseNat b).map fun f => (i : ℚ) + (f : ℚ) / 10 ^ b.length
  | _ => none

/-- Parse a decimal number with an optional leading minus sign. -/
def parseDecimal (cs : List Char) : Option ℚ :=
  if cs.head? = some '-' then (parseUnsignedDecimal cs.tail).map fun q => -q
  else parseUnsignedDecimal cs

/-- Parse a space-separated token list as one per-vertex record. -/
def parseVertexTokens (ts : List (List Char)) : Option (ℕ × ℚ × ℚ × ℚ × ℚ) :=
  match ts with
  | [i, x, y, z, dd] =>
    (parseNat i).bind fun iv =>
      (parseDecimal x).bind fun xv =>
        (parseDecimal y).bind fun yv =>
          (parseDecimal z).bind fun zv =>
            (parseDecimal dd).map fun dv => (iv, xv, yv, zv, dv)
  | _ => none

/-- Parse one per-vertex line of the export file:
`<index> <x> <y> <z> <distance>`. -/
def parseVertexLine (s : String) : Option (ℕ × ℚ × ℚ × ℚ × ℚ) :=
  parseVertexTokens (splitSep ' ' s.toList)

/-- Whether a character is an ASCII digit. -/
def isDigitCh (c : Char) : Bool := decide ('0' ≤ c ∧ c ≤ '9')

/-- Drop one leading minus sign, if present. -/
def stripMinus (cs : List Char) : List Char :=
  if cs.head? = some '-' then cs.tail else cs

/-- Whether a character list is a fixed-point numeral with exactly 10
digits after the decimal point (optionally signed). -/
def isFixed10Chars (cs : List Char) : Bool :=
  match splitSep '.' (stripMinus cs) with
  | [a, b] => !a.isEmpty && a.all isDigitCh && (b.length == 10) && b.all isDigitCh
  | _ => false

/-- Whether a string is a fixed-point numeral with exactly 10 digits after
the decimal point. -/
def isFixed10 (s : String) : Bool := isFixed10Chars s.toList

/-! ### Concrete fixtures: the unit-square mesh of Scenario A and the
states used to exercise the operations on concrete inputs -/

/-- The unit square split into the two triangles `(0,1,2)` and `(0,2,3)`:
five edges, the last two vertices above the midline `y = 1/2`. -/
def sqMesh : Mesh := ⟨4, [(0, 1), (1, 2), (2, 0), (2, 3), (3, 0)]⟩

/-- Positions of the unit square's corners. -/
def sqGeo : GeometryData :=
  ⟨[⟨0, 0, 0⟩, ⟨1, 0, 0⟩, ⟨1, 1, 0⟩, ⟨0, 1, 0⟩]⟩

/-- The Y-axis plane normal (the program's default). -/
def midNormal : Vector3 := ⟨0, 1, 0⟩

/-- The plane height slicing the unit square through its exact midline. -/
def midHeight : ℚ := 1 / 2

/-- A plane height far above the unit square: no edge crosses it. -/
def farHeight : ℚ := 5

/-- An application state with the program's default plane parameters
(`planeHeight = -0.975`, Y-axis normal) and a computed distance field for
the four square vertices. -/
def stA : AppState := ⟨midNormal, -39 / 40, [0, 1 / 2, 1, 1 / 2]⟩

/-- An application state in which no distance field has been computed yet. -/
def stEmpty : AppState := ⟨midNormal, -39 / 40, []⟩

/-- The discrete metric on surface points: a concrete geodesic-distance
oracle used to exercise the propagator model. -/
def dDisc : GeodesicOracle := fun p q => if p = q then 0 else 1

/-- An application state asking for extraction against the far plane. -/
def stFar : AppState := ⟨midNormal, farHeight, []⟩

/-- A two-element source set used to exercise the closest-source scan. -/
def srcPair : List SurfacePoint := [SurfacePoint.vertex 0, SurfacePoint.vertex 1]

/-! ## Theorems -/

/-- Inversion for the edge-crossing test: exactly when the signed distances
have a non-positive product and differ by more than the tolerance, the edge
emits the clamped intersection point. -/
theorem edgeCrossing_eq_some (geo : GeometryData) (pn : Vector3) (ph : ℚ)
    (eIdx : ℕ) (e : ℕ × ℕ) (sp : SurfacePoint) :
    edgeCrossing geo pn ph eIdx e = some sp ↔
      (let dist1 := signedDist pn ph (geo.positions.getD e.1 vzero)
       let dist2 := signedDist pn ph (geo.positions.getD e.2 vzero)
       dist1 * dist2 ≤ 0 ∧ planeTol < |dist1 - dist2| ∧
         sp = SurfacePoint.edgePoint eIdx (clamp01 (dist1 / (dist1 - dist2)))) := by
  simp only [edgeCrossing]
  split_ifs with hc
  · simp only [Option.some.injEq]
    constructor
    · intro h
      exact ⟨hc.1, hc.2, h.symm⟩
    · intro h
      exact h.2.2.symm
  · simp only [reduceCtorEq, false_iff, not_and]
    intro h1 h2
    exact absurd ⟨h1, h2⟩ hc

/-- Membership in the extractor's worklist recursion: a point is collected
iff some edge of the remaining list emits it, at the shifted index. -/
theorem mem_extractAux (geo : GeometryData) (pn : Vector3) (ph : ℚ) :
    ∀ (es : List (ℕ × ℕ)) (i0 : ℕ) (sp : SurfacePoint),
      sp ∈ extractAux geo pn ph i0 es ↔
        ∃ k, ∃ (hk : k < es.length),
          edgeCrossing geo pn ph (i0 + k) es[k] = some sp := by
  intro es
  induction es with
  | nil =>
    intro i0 sp
    simp [extractAux]
  | cons e rest ih =>
    intro i0 sp
    rcases heq : edgeCrossing geo pn ph i0 e with _ | sp0
    · have hred : extractAux geo pn ph i0 (e :: rest)
          = extractAux geo pn ph (i0 + 1) rest := by
        simp [extractAux, heq]
      rw [hred, ih]
      constructor
      · rintro ⟨k, hk, hck⟩
        refine ⟨k + 1, by simpa using Nat.succ_lt_succ hk, ?_⟩
        simpa [Nat.add_assoc, Nat.add_comm 1 k] using hck
      · rintro ⟨k, hk, hck⟩
        cases k with
        | zero =>
          rw [List.getElem_cons_zero] at hck
          rw [Nat.add_zero] at hck
          exact absurd hck (by simp [heq])
        | succ k2 =>
          refine ⟨k2, by simpa using Nat.lt_of_succ_lt_succ hk, ?_⟩
          rw [List.getElem_cons_succ] at hck
          simpa [Nat.add_assoc, Nat.add_comm 1 k2] using hck
    · have hred : extractAux geo pn ph i0 (e :: rest)
          = sp0 :: extractAux geo pn ph (i0 + 1) rest := by
        simp [extractAux, heq]
      rw [hred]
      simp only [List.mem_cons, ih]
      constructor
      · rintro (h | ⟨k, hk, hck⟩)
        · exact ⟨0, by simp, by simpa [h] using heq⟩
        · refine ⟨k + 1, by simpa using Nat.succ_lt_succ hk, ?_⟩
          simpa [Nat.add_assoc, Nat.add_comm 1 k] using hck
      · rintro ⟨k, hk, hck⟩
        cases k with
        | zero =>
          rw [List.getElem_cons_zero] at hck
          rw [Nat.add_zero] at hck
          rw [heq] at hck
          exact Or.inl (Option.some.inj hck).symm
        | succ k2 =>
          refine Or.inr ⟨k2, by simpa using Nat.lt_of_succ_lt_succ hk, ?_⟩
          rw [List.getElem_cons_succ] at hck
          simpa [Nat.add_assoc, Nat.add_comm 1 k2] using hck

/-- C1: for every mesh edge, with signed plane distances `d1`, `d2`, the
extractor emits the surface point at parameter `clamp(d1/(d1-d2), 0, 1)` —
a value always in `[0,1]` — iff `d1·d2 ≤ 0` and `|d1-d2|` exceeds the fixed
tolerance; otherwise (same strict side, or difference at or below
tolerance) the edge emits nothing. -/
theorem extractSources_crossing_iff (m : Mesh) (geo : GeometryData)
    (pn : Vector3) (ph : ℚ) (eIdx : ℕ) :
    let e := m.edges.getD eIdx (0, 0)
    let dist1 := signedDist pn ph (geo.positions.getD e.1 vzero)
    let dist2 := signedDist pn ph (geo.positions.getD e.2 vzero)
    (0 ≤ clamp01 (dist1 / (dist1 - dist2))
        ∧ clamp01 (dist1 / (dist1 - dist2)) ≤ 1) ∧
      (eIdx < m.edges.length →
        (SurfacePoint.edgePoint eIdx (clamp01 (dist1 / (dist1 - dist2)))
            ∈ extractSources m geo pn ph
          ↔ dist1 * dist2 ≤ 0 ∧ planeTol < |dist1 - dist2|)) ∧
      (¬(dist1 * dist2 ≤ 0 ∧ planeTol < |dist1 - dist2|) →
        ∀ t, SurfacePoint.edgePoint eIdx t ∉ extractSources m geo pn ph) := by
  intro e dist1 dist2
  refine ⟨⟨le_max_left 0 _, max_le (by norm_num) (min_le_left 1 _)⟩, ?_, ?_⟩
  · intro hlt
    rw [extractSources, mem_extractAux]
    constructor
    · rintro ⟨k, hk, hck⟩
      rw [edgeCrossing_eq_some] at hck
      obtain ⟨h1, h2, h3⟩ := hck
      have hkeq : k = eIdx := by
        have := congrArg (fun sp => match sp with
          | SurfacePoint.edgePoint i _ => i
          | SurfacePoint.vertex v => v) h3
        simpa using this.symm
      subst hkeq
      have hget : m.edges[k] = e := (List.getD_eq_getElem m.edges (0, 0) hk).symm
      rw [hget] at h1 h2
      exact ⟨h1, h2⟩
    · intro hcond
      refine ⟨eIdx, hlt, ?_⟩
      rw [edgeCrossing_eq_some]
      have hget : m.edges[eIdx] = e := (List.getD_eq_getElem m.edges (0, 0) hlt).symm
      rw [Nat.zero_add, hget]
      exact ⟨hcond.1, hcond.2, rfl⟩
  · intro hnc t hmem
    rw [extractSources, mem_extractAux] at hmem
    obtain ⟨k, hk, hck⟩ := hmem
    rw [edgeCrossing_eq_some] at hck
    obtain ⟨h1, h2, h3⟩ := hck
    have hkeq : k = eIdx := by
      have := congrArg (fun sp => match sp with
        | SurfacePoint.edgePoint i _ => i
        | SurfacePoint.vertex v => v) h3
      simpa using this.symm
    subst hkeq
    have hget : m.edges[k] = e := (List.getD_eq_getElem m.edges (0, 0) hk).symm
    rw [hget] at h1 h2
    exact hnc ⟨h1, h2⟩

/-- C2: when no edge crosses the plane, `computeGeodesics` warns and
returns with the stored distance field untouched; propagation is never
reached. -/
theorem computeGeodesics_noSources (d : GeodesicOracle) (m : Mesh)
    (geo : GeometryData) (st : AppState)
    (h : extractSources m geo st.planeNormal st.planeHeight = []) :
    computeGeodesics d m geo st = (st, GeoOutcome.warnedNoSources) := by
  simp [computeGeodesics, h]

/-- Witness for C2 at the unit square sliced by a plane far above it: the
extractor finds nothing, the state is returned unchanged with the warning. -/
theorem computeGeodesics_noSources_witness :
    computeGeodesics dDisc sqMesh sqGeo stFar = (stFar, GeoOutcome.warnedNoSources) :=
  computeGeodesics_noSources dDisc sqMesh sqGeo stFar (by
    norm_num [extractSources, extractAux, edgeCrossing, signedDist, dot,
      planeTol, sqMesh, sqGeo, stFar, midNormal, farHeight, vzero])

/-- Characterisation of the closest-source scan's accumulator recursion:
the result bounds every remaining distance and the incoming best, and it is
either the incoming best or a strict improvement found at the first index
attaining it. -/
theorem closestSourceAux_spec (d : GeodesicOracle) (p : SurfacePoint) :
    ∀ (rest : List SurfacePoint) (i : ℕ) (best : ℕ × ℚ),
      (∀ k (hk : k < rest.length),
        (closestSourceAux d p rest i best).2 ≤ d p rest[k]) ∧
      (closestSourceAux d p rest i best).2 ≤ best.2 ∧
      (closestSourceAux d p rest i best = best ∨
        ∃ k, ∃ (hk : k < rest.length),
          closestSourceAux d p rest i best = (i + k, d p rest[k]) ∧
          (∀ k2 (hk2 : k2 < rest.length), k2 < k →
            (closestSourceAux d p rest i best).2 < d p rest[k2]) ∧
          (closestSourceAux d p rest i best).2 < best.2) := by
  intro rest
  induction rest with
  | nil =>
    intro i best
    refine ⟨?_, le_refl _, Or.inl rfl⟩
    intro k hk
    exact absurd hk (by simp)
  | cons s rest ih =>
    intro i best
    by_cases hlt : d p s < best.2
    · have hred : closestSourceAux d p (s :: rest) i best
          = closestSourceAux d p rest (i + 1) (i, d p s) := by
        simp [closestSourceAux, hlt]
      obtain ⟨ub, ble, hc⟩ := ih (i + 1) (i, d p s)
      rw [hred]
      refine ⟨?_, ble.trans hlt.le, ?_⟩
      · intro k hk
        cases k with
        | zero => simpa using ble
        | succ k2 =>
          rw [List.getElem_cons_succ]
          exact ub k2 (Nat.lt_of_succ_lt_succ hk)
      · rcases hc with hbest | ⟨k, hk, hres, hbefore, himp⟩
        · refine Or.inr ⟨0, by simp, ?_, ?_, ?_⟩
          · simpa using hbest
          · intro k2 hk2 hk20
            exact absurd hk20 (Nat.not_lt_zero k2)
          · rw [hbest]
            exact hlt
        · refine Or.inr ⟨k + 1, by simpa using Nat.succ_lt_succ hk, ?_, ?_, ?_⟩
          · rw [List.getElem_cons_succ]
            rw [hres]
            congr 1
            omega
          · intro k2 hk2 hk21
            cases k2 with
            | zero =>
              rw [List.getElem_cons_zero]
              exact lt_of_lt_of_le himp (by simp)
            | succ k3 =>
              rw [List.getElem_cons_succ]
              exact hbefore k3 (Nat.lt_of_succ_lt_succ hk2) (Nat.lt_of_succ_lt_succ hk21)
          · exact lt_trans himp hlt
    · have hred : closestSourceAux d p (s :: rest) i best
          = closestSourceAux d p rest (i + 1) best := by
        simp [closestSourceAux, hlt]
      obtain ⟨ub, ble, hc⟩ := ih (i + 1) best
      rw [hred]
      have hsb : best.2 ≤ d p s := le_of_not_lt hlt
      refine ⟨?_, ble, ?_⟩
      · intro k hk
        cases k with
        | zero =>
          rw [List.getElem_cons_zero]
          exact ble.trans hsb
        | succ k2 =>
          rw [List.getElem_cons_succ]
          exact ub k2 (Nat.lt_of_succ_lt_succ hk)
      · rcases hc with hbest | ⟨k, hk, hres, hbefore, himp⟩
        · exact Or.inl hbest
        · refine Or.inr ⟨k + 1, by simpa using Nat.succ_lt_succ hk, ?_, ?_, himp⟩
          · rw [List.getElem_cons_succ]
            rw [hres]
            congr 1
            omega
          · intro k2 hk2 hk21
            cases k2 with
            | zero =>
              rw [List.getElem_cons_zero]
              exact lt_of_lt_of_le himp hsb
            | succ k3 =>
              rw [List.getElem_cons_succ]
              exact hbefore k3 (Nat.lt_of_succ_lt_succ hk2) (Nat.lt_of_succ_lt_succ hk21)

/-- Characterisation of `closestSource`: the returned pair names an actual
source attaining the returned distance, the distance is a lower bound over
all sources, and every source with a strictly smaller index is strictly
farther. -/
theorem closestSource_spec (d : GeodesicOracle) (ss : List SurfacePoint)
    (p : SurfacePoint) (j : ℕ) (m : ℚ)
    (h : closestSource d ss p = some (j, m)) :
    ∃ (hj : j < ss.length), d p ss[j] = m ∧
      (∀ k (hk : k < ss.length), m ≤ d p ss[k]) ∧
      (∀ k (hk : k < ss.length), k < j → m < d p ss[k]) := by
  match ss with
  | [] => exact absurd h (by simp [closestSource])
  | s :: rest =>
    rw [closestSource] at h
    have hres := Option.some.inj h
    obtain ⟨ub, ble, hc⟩ := closestSourceAux_spec d p rest 1 (0, d p s)
    rcases hc with hbest | ⟨k, hk, haux, hbefore, himp⟩
    · rw [hbest] at hres
      injection hres with hj1 hm1
      subst hj1
      subst hm1
      refine ⟨by simp, by simp, ?_, ?_⟩
      · intro k hk
        cases k with
        | zero => simp
        | succ k2 =>
          rw [List.getElem_cons_succ]
          have hb := ub k2 (Nat.lt_of_succ_lt_succ hk)
          rw [hbest] at hb
          exact hb
      · intro k hk hk0
        exact absurd hk0 (Nat.not_lt_zero k)
    · rw [Nat.add_comm 1 k] at haux
      rw [haux] at hres
      injection hres with hj1 hm1
      subst hj1
      subst hm1
      have hsnd : (closestSourceAux d p rest 1 (0, d p s)).2 = d p rest[k] := by
        rw [haux]
      rw [hsnd] at ub hbefore himp
      have hjlen : k + 1 < (s :: rest).length := by simpa using Nat.succ_lt_succ hk
      refine ⟨hjlen, ?_, ?_, ?_⟩
      · rw [List.getElem_cons_succ]
      · intro k2 hk2
        cases k2 with
        | zero =>
          rw [List.getElem_cons_zero]
          exact (himp.trans_le (by simp)).le
        | succ k3 =>
          rw [List.getElem_cons_succ]
          exact ub k3 (Nat.lt_of_succ_lt_succ hk2)
      · intro k2 hk2 hk21
        cases k2 with
        | zero =>
          rw [List.getElem_cons_zero]
          exact himp.trans_le (by simp)
        | succ k3 =>
          rw [List.getElem_cons_succ]
          exact hbefore k3 (Nat.lt_of_succ_lt_succ hk2) (Nat.lt_of_succ_lt_succ hk21)

/-- C3: under the spec-modelled geodesic oracle (nonnegative, zero on
coincident points), every closest-source answer has a nonnegative distance,
the distance is exactly zero whenever the query coincides with some source,
and for a query that is itself the `i`-th source the returned index is the
lowest index among sources coincident with it (in particular its own index
when no earlier source coincides). -/
theorem closestSource_nonneg_zero_lowest (d : GeodesicOracle)
    (ss : List SurfacePoint) (p : SurfacePoint) (j : ℕ) (m : ℚ)
    (hnn : ∀ a b, 0 ≤ d a b) (hrefl : ∀ a, d a a = 0)
    (hres : closestSource d ss p = some (j, m)) :
    0 ≤ m ∧
      ((∃ s ∈ ss, d p s = 0) → m = 0) ∧
      (∀ i (hi : i < ss.length), p = ss[i] →
        ∃ (hj : j < ss.length), d p ss[j] = 0 ∧
          ∀ k (hk : k < ss.length), d p ss[k] = 0 → j ≤ k) := by
  obtain ⟨hj, hat, hlb, hstrict⟩ := closestSource_spec d ss p j m hres
  have hm0 : 0 ≤ m := hat ▸ hnn p ss[j]
  have hzero : (∃ s ∈ ss, d p s = 0) → m = 0 := by
    rintro ⟨s, hsmem, hs0⟩
    obtain ⟨k, hk, hkeq⟩ := List.mem_iff_getElem.mp hsmem
    have := hlb k hk
    rw [hkeq, hs0] at this
    exact le_antisymm this hm0
  refine ⟨hm0, hzero, ?_⟩
  intro i hi hp
  have hpi : d p ss[i] = 0 := by
    rw [← hp]
    exact hrefl p
  have hm00 : m = 0 := hzero ⟨ss[i], List.getElem_mem hi, hpi⟩
  refine ⟨hj, by rw [hat, hm00], ?_⟩
  intro k hk hk0
  by_contra hlt
  have := hstrict k hk (Nat.lt_of_not_le (fun hle => hlt (Nat.le_of_lt_succ (Nat.lt_succ_of_le hle))))
  rw [hk0, hm00] at this
  exact absurd this (lt_irrefl 0)

/-- Witness for C3 with the discrete metric and a two-vertex source set:
querying the first source returns distance `0` at its own index `0`. -/
theorem closestSource_nonneg_zero_lowest_witness :
    0 ≤ (0 : ℚ) ∧
      ((∃ s ∈ srcPair, dDisc (SurfacePoint.vertex 0) s = 0) → (0 : ℚ) = 0) ∧
      (∀ i (hi : i < srcPair.length), SurfacePoint.vertex 0 = srcPair[i] →
        ∃ (hj : 0 < srcPair.length), dDisc (SurfacePoint.vertex 0) srcPair[0] = 0 ∧
          ∀ k (hk : k < srcPair.length),
            dDisc (SurfacePoint.vertex 0) srcPair[k] = 0 → 0 ≤ k) :=
  closestSource_nonneg_zero_lowest dDisc srcPair (SurfacePoint.vertex 0) 0 0
    (by
      intro a b
      by_cases hab : a = b <;> simp [dDisc, hab])
    (by
      intro a
      simp [dDisc])
    (by norm_num [closestSource, closestSourceAux, srcPair, dDisc])

/-- C4: the model of a propagation run is a pure function — two runs on
identical inputs return identical per-vertex distance fields — and ties
between equal-distance sources are broken by the lowest source index. -/
theorem computeGeodesics_deterministic (d : GeodesicOracle)
    (m₁ m₂ : Mesh) (geo₁ geo₂ : GeometryData) (st₁ st₂ : AppState)
    (hm : m₁ = m₂) (hg : geo₁ = geo₂) (hst : st₁ = st₂) :
    computeGeodesics d m₁ geo₁ st₁ = computeGeodesics d m₂ geo₂ st₂ ∧
      ∀ (ss : List SurfacePoint) (p : SurfacePoint) (j : ℕ) (mm : ℚ),
        closestSource d ss p = some (j, mm) →
        ∀ k (hk : k < ss.length), d p ss[k] = mm → j ≤ k := by
  subst hm
  subst hg
  subst hst
  refine ⟨rfl, ?_⟩
  intro ss p j mm hres k hk hkm
  obtain ⟨hj, hat, hlb, hstrict⟩ := closestSource_spec d ss p j mm hres
  by_contra hlt
  have := hstrict k hk (Nat.lt_of_not_le hlt)
  rw [hkm] at this
  exact absurd this (lt_irrefl mm)

/-- Witness for C4: a concrete double run on the unit square state, plus
the instantiated tie-break property. -/
theorem computeGeodesics_deterministic_witness :
    computeGeodesics dDisc sqMesh sqGeo stA = computeGeodesics dDisc sqMesh sqGeo stA ∧
      ∀ (ss : List SurfacePoint) (p : SurfacePoint) (j : ℕ) (mm : ℚ),
        closestSource dDisc ss p = some (j, mm) →
        ∀ k (hk : k < ss.length), dDisc p ss[k] = mm → j ≤ k :=
  computeGeodesics_deterministic dDisc sqMesh sqMesh sqGeo sqGeo stA stA rfl rfl rfl

/-- C7: the export operation is a pure function of the distance-field
state — identical state yields byte-for-byte identical file contents. -/
theorem exportGeodesicDistances_deterministic (openOk₁ openOk₂ : Bool)
    (m₁ m₂ : Mesh) (geo₁ geo₂ : GeometryData) (st₁ st₂ : AppState)
    (ho : openOk₁ = openOk₂) (hm : m₁ = m₂) (hg : geo₁ = geo₂)
    (hst : st₁ = st₂) :
    exportGeodesicDistances openOk₁ m₁ geo₁ st₁
      = exportGeodesicDistances openOk₂ m₂ geo₂ st₂ := by
  subst ho
  subst hm
  subst hg
  subst hst
  rfl

/-- Witness for C7: a concrete double export of the same state. -/
theorem exportGeodesicDistances_deterministic_witness :
    exportGeodesicDistances true sqMesh sqGeo stA
      = exportGeodesicDistances true sqMesh sqGeo stA :=
  exportGeodesicDistances_deterministic true true sqMesh sqMesh sqGeo sqGeo
    stA stA rfl rfl rfl rfl

/-- C10: when no distance field has been computed (the stored distances are
empty), export warns and returns before any file is opened or created, and
the program state is unchanged — the outcome is the warning, not an open
error and not written contents. -/
theorem exportGeodesicDistances_noData (openOk : Bool) (m : Mesh)
    (geo : GeometryData) (st : AppState)
    (h : st.currentGeodesicDistances.length = 0) :
    exportGeodesicDistances openOk m geo st = (st, ExportOutcome.warnedNotComputed) := by
  simp [exportGeodesicDistances, h]

/-- Witness for C10 on a state with no computed distances. -/
theorem exportGeodesicDistances_noData_witness :
    exportGeodesicDistances true sqMesh sqGeo stEmpty
      = (stEmpty, ExportOutcome.warnedNotComputed) :=
  exportGeodesicDistances_noData true sqMesh sqGeo stEmpty rfl

/-- Reading one entry of the per-vertex distance field: for a vertex in
range it is the closest-source distance of that vertex's surface point. -/
theorem computeDistances_getD (d : GeodesicOracle) (m : Mesh)
    (ss : List SurfacePoint) (v : ℕ) (hv : v < m.nVertices) :
    (computeDistances d m ss).getD v 0
      = ((closestSource d ss (SurfacePoint.vertex v)).getD (0, 0)).2 := by
  have hlen : v < (computeDistances d m ss).length := by
    simp [computeDistances, hv]
  rw [List.getD_eq_getElem _ _ hlen]
  simp [computeDistances]

/-- C9: under the spec-modelled geodesic oracle (triangle inequality,
symmetry), the finalized per-vertex distances of two vertices joined by a
mesh edge whose intrinsic separation is at most `L` differ by at most `L` —
the distance field is 1-Lipschitz along edges. -/
theorem computeDistances_edge_lipschitz (d : GeodesicOracle) (m : Mesh)
    (ss : List SurfacePoint) (p q : ℕ) (L : ℚ)
    (htri : ∀ a b c, d a c ≤ d a b + d b c)
    (hsym : ∀ a b, d a b = d b a)
    (_hedge : (p, q) ∈ m.edges ∨ (q, p) ∈ m.edges)
    (hp : p < m.nVertices) (hq : q < m.nVertices)
    (hL : d (SurfacePoint.vertex p) (SurfacePoint.vertex q) ≤ L)
    (hne : ss ≠ []) :
    |(computeDistances d m ss).getD p 0 - (computeDistances d m ss).getD q 0| ≤ L := by
  match ss, hne with
  | s :: rest, _ =>
    have hresP : closestSource d (s :: rest) (SurfacePoint.vertex p)
        = some ((closestSourceAux d (SurfacePoint.vertex p) rest 1
            (0, d (SurfacePoint.vertex p) s)).1,
          (closestSourceAux d (SurfacePoint.vertex p) rest 1
            (0, d (SurfacePoint.vertex p) s)).2) := rfl
    have hresQ : closestSource d (s :: rest) (SurfacePoint.vertex q)
        = some ((closestSourceAux d (SurfacePoint.vertex q) rest 1
            (0, d (SurfacePoint.vertex q) s)).1,
          (closestSourceAux d (SurfacePoint.vertex q) rest 1
            (0, d (SurfacePoint.vertex q) s)).2) := rfl
    obtain ⟨hjp, hatp, hlbp, _⟩ := closestSource_spec d (s :: rest)
      (SurfacePoint.vertex p) _ _ hresP
    obtain ⟨hjq, hatq, hlbq, _⟩ := closestSource_spec d (s :: rest)
      (SurfacePoint.vertex q) _ _ hresQ
    rw [computeDistances_getD d m (s :: rest) p hp,
      computeDistances_getD d m (s :: rest) q hq, hresP, hresQ]
    rw [abs_sub_le_iff]
    constructor
    · have h1 := hlbp _ hjq
      have h2 := htri (SurfacePoint.vertex p) (SurfacePoint.vertex q)
        (s :: rest)[(closestSourceAux d (SurfacePoint.vertex q) rest 1
          (0, d (SurfacePoint.vertex q) s)).1]
      rw [hatq] at h2
      have h3 := h1.trans h2
      simp only [Option.getD_some]
      linarith
    · have h1 := hlbq _ hjp
      have h2 := htri (SurfacePoint.vertex q) (SurfacePoint.vertex p)
        (s :: rest)[(closestSourceAux d (SurfacePoint.vertex p) rest 1
          (0, d (SurfacePoint.vertex p) s)).1]
      rw [hatp] at h2
      have h3 := h1.trans h2
      rw [hsym (SurfacePoint.vertex q) (SurfacePoint.vertex p)] at h3
      simp only [Option.getD_some]
      linarith

/-- Witness for C9: the discrete metric, the unit-square mesh edge `(0,1)`
and the two-vertex source set give distances differing by at most `1`. -/
theorem computeDistances_edge_lipschitz_witness :
    |(computeDistances dDisc sqMesh srcPair).getD 0 0
        - (computeDistances dDisc sqMesh srcPair).getD 1 0| ≤ 1 :=
  computeDistances_edge_lipschitz dDisc sqMesh srcPair 0 1 1
    (by
      intro a b c
      simp only [dDisc]
      by_cases hac : a = c
      · rw [if_pos hac]
        have h1 : (0 : ℚ) ≤ if a = b then (0 : ℚ) else 1 := by split <;> norm_num
        have h2 : (0 : ℚ) ≤ if b = c then (0 : ℚ) else 1 := by split <;> norm_num
        linarith
      · rw [if_neg hac]
        by_cases hab : a = b
        · rw [if_pos hab, if_neg (fun h => hac (hab.trans h))]
          norm_num
        · rw [if_neg hab]
          have h2 : (0 : ℚ) ≤ if b = c then (0 : ℚ) else 1 := by split <;> norm_num
          linarith)
    (by
      intro a b
      by_cases h : a = b
      · subst h
        rfl
      · have h2 : ¬b = a := fun hh => h hh.symm
        simp [dDisc, h, h2])
    (Or.inl (by decide))
    (by decide)
    (by decide)
    (by simp [dDisc])
    (by decide)

/-- Counterexample to C8 as stated: slicing the two-triangle unit square
through its exact midline, the extractor does not return exactly two
surface points — the triangulation diagonal `(2,0)` crosses the midline as
well, so three edges emit a point. -/
theorem extractSources_square_not_two :
    ¬(extractSources sqMesh sqGeo midNormal midHeight).length = 2 := by
  have h : extractSources sqMesh sqGeo midNormal midHeight
      = [SurfacePoint.edgePoint 1 (1 / 2), SurfacePoint.edgePoint 2 (1 / 2),
         SurfacePoint.edgePoint 4 (1 / 2)] := by
    norm_num [extractSources, extractAux, edgeCrossing, signedDist, dot,
      planeTol, clamp01, sqMesh, sqGeo, midNormal, midHeight, vzero]
  rw [h]
  decide

/-- C8 (amended): for the planar unit-square mesh of two triangles sliced
by the plane through its exact midline, the extractor returns exactly three
surface points — one on each of the two side edges crossing the midline and
one on the triangulation diagonal, which crosses it too — each at parameter
`t = 1/2`. -/
theorem extractSources_square_midline :
    extractSources sqMesh sqGeo midNormal midHeight
      = [SurfacePoint.edgePoint 1 (1 / 2), SurfacePoint.edgePoint 2 (1 / 2),
         SurfacePoint.edgePoint 4 (1 / 2)] := by
  norm_num [extractSources, extractAux, edgeCrossing, signedDist, dot,
    planeTol, clamp01, sqMesh, sqGeo, midNormal, midHeight, vzero]

/-! ### Decimal digits: correctness of the fueled digit expansion -/

/-- The fueled digit expansion denotes its input (when the fuel suffices). -/
theorem natDigitsAux_ofDigits : ∀ (fuel n : ℕ), n ≤ fuel →
    Nat.ofDigits 10 (natDigitsAux fuel n) = n
  | 0, 0, _ => by simp [natDigitsAux]
  | 0, n + 1, h => absurd h (by omega)
  | fuel + 1, 0, _ => by simp [natDigitsAux]
  | fuel + 1, n + 1, h => by
    rw [natDigitsAux, Nat.ofDigits_cons,
      natDigitsAux_ofDigits fuel ((n + 1) / 10) (by omega)]
    omega

/-- The digit list of `n` denotes `n`. -/
theorem natDigits_ofDigits (n : ℕ) : Nat.ofDigits 10 (natDigits n) = n :=
  natDigitsAux_ofDigits n n (le_refl n)

/-- Every produced digit is below the base. -/
theorem natDigitsAux_lt : ∀ (fuel n d : ℕ), d ∈ natDigitsAux fuel n → d < 10
  | 0, _, d, h => absurd h (by simp [natDigitsAux])
  | fuel + 1, 0, d, h => absurd h (by simp [natDigitsAux])
  | fuel + 1, n + 1, d, h => by
    rw [natDigitsAux] at h
    rcases List.mem_cons.mp h with h1 | h2
    · subst h1
      omega
    · exact natDigitsAux_lt fuel ((n + 1) / 10) d h2

/-- Every digit of `n` is below the base. -/
theorem natDigits_lt (n d : ℕ) (h : d ∈ natDigits n) : d < 10 :=
  natDigitsAux_lt n n d h

/-- A number below `10^k` has at most `k` digits. -/
theorem natDigitsAux_length : ∀ (fuel n k : ℕ), n < 10 ^ k →
    (natDigitsAux fuel n).length ≤ k
  | 0, _, k, _ => by simp [natDigitsAux]
  | fuel + 1, 0, k, _ => by simp [natDigitsAux]
  | fuel + 1, n + 1, k, h => by
    rw [natDigitsAux]
    cases k with
    | zero => norm_num at h
    | succ k2 =>
      simp only [List.length_cons]
      have hdiv : (n + 1) / 10 < 10 ^ k2 := by
        rw [Nat.div_lt_iff_lt_mul (by norm_num)]
        calc n + 1 < 10 ^ (k2 + 1) := h
          _ = 10 ^ k2 * 10 := by ring
      have := natDigitsAux_length fuel ((n + 1) / 10) k2 hdiv
      omega

/-- A number below `10^k` has at most `k` digits. -/
theorem natDigits_length (n k : ℕ) (h : n < 10 ^ k) : (natDigits n).length ≤ k :=
  natDigitsAux_length n n k h

/-- A nonzero number has a nonempty digit list. -/
theorem natDigits_ne_nil (n : ℕ) (h : n ≠ 0) : natDigits n ≠ [] := by
  match n, h with
  | m + 1, _ =>
    rw [natDigits, natDigitsAux]
    simp

/-- Digit characters parse back to their digit. -/
theorem charToDigit_digitChar (d : ℕ) (h : d < 10) :
    charToDigit (digitChar d) = some d := by
  interval_cases d <;> decide

/-- Digit characters are classified as digits. -/
theorem isDigitCh_digitChar (d : ℕ) (h : d < 10) : isDigitCh (digitChar d) = true := by
  interval_cases d <;> decide

/-- A digit character is not a point, a space or a minus sign. -/
theorem isDigitCh_ne_special (c : Char) (h : isDigitCh c = true) :
    c ≠ '.' ∧ c ≠ ' ' ∧ c ≠ '-' := by
  refine ⟨?_, ?_, ?_⟩ <;> intro he <;> subst he <;> exact absurd h (by decide)

/-- Folding the decimal digits little-endian is `Nat.ofDigits`. -/
theorem foldr_eq_ofDigits (ds : List ℕ) :
    List.foldr (fun x y => 10 * y + x) 0 ds = Nat.ofDigits 10 ds := by
  induction ds with
  | nil => simp [Nat.ofDigits]
  | cons d rest ih =>
    rw [List.foldr_cons, ih, Nat.ofDigits_cons]
    ring

/-- Parsing a mapped digit list accumulates the digits big-endian. -/
theorem parseNatAux_digits (ds : List ℕ) (hds : ∀ d ∈ ds, d < 10) :
    ∀ acc, parseNatAux (ds.map digitChar) acc
      = some (ds.foldl (fun a d => 10 * a + d) acc) := by
  induction ds with
  | nil =>
    intro acc
    simp [parseNatAux]
  | cons d rest ih =>
    intro acc
    rw [List.map_cons, parseNatAux, charToDigit_digitChar d (hds d (by simp)),
      Option.some_bind, ih (fun x hx => hds x (by simp [hx])), List.foldl_cons]

/-- Parsing the big-endian digit rendering recovers the number. -/
theorem parseNatAux_revDigits (m : ℕ) :
    parseNatAux ((natDigits m).reverse.map digitChar) 0 = some m := by
  rw [parseNatAux_digits _ (fun d hd => natDigits_lt m d (List.mem_reverse.mp hd)) 0]
  congr 1
  rw [List.foldl_reverse]
  exact (foldr_eq_ofDigits (natDigits m)).trans (natDigits_ofDigits m)

/-- Parsing the decimal rendering of a natural number recovers it. -/
theorem parseNat_natChars (n : ℕ) : parseNat (natChars n) = some n := by
  by_cases h : n = 0
  · subst h
    decide
  · rw [natChars, if_neg h, parseNat]
    have hne : (natDigits n).reverse.map digitChar ≠ [] := by
      rw [Ne, List.map_eq_nil_iff, List.reverse_eq_nil_iff]
      exact natDigits_ne_nil n h
    rw [if_neg (by simpa [List.isEmpty_iff] using hne)]
    exact parseNatAux_revDigits n

/-- Leading zeros do not change the parsed value. -/
theorem parseNatAux_replicate_zero (cs : List Char) :
    ∀ k, parseNatAux (List.replicate k '0' ++ cs) 0 = parseNatAux cs 0 := by
  intro k
  induction k with
  | zero => simp
  | succ k2 ih =>
    rw [List.replicate_succ, List.cons_append, parseNatAux,
      show charToDigit '0' = some 0 by decide, Option.some_bind]
    simpa using ih

/-! ### Splitting at separators -/

/-- Splitting a separator-free list yields one token. -/
theorem splitSepAux_no_sep (sep : Char) :
    ∀ (cs : List Char), sep ∉ cs → ∀ acc,
      splitSepAux sep cs acc = [acc.reverse ++ cs] := by
  intro cs
  induction cs with
  | nil =>
    intro _ acc
    simp [splitSepAux]
  | cons c rest ih =>
    intro h acc
    rw [splitSepAux, if_neg (by rintro rfl; exact h (List.mem_cons_self _ _))]
    rw [ih (fun hm => h (List.mem_cons_of_mem _ hm)) (c :: acc)]
    simp

/-- Splitting past a separator-free prefix emits that prefix as a token. -/
theorem splitSepAux_append (sep : Char) :
    ∀ (a : List Char), sep ∉ a → ∀ (b : List Char) (acc),
      splitSepAux sep (a ++ sep :: b) acc
        = (acc.reverse ++ a) :: splitSepAux sep b [] := by
  intro a
  induction a with
  | nil =>
    intro _ b acc
    rw [List.nil_append, splitSepAux, if_pos rfl]
    simp
  | cons c rest ih =>
    intro h b acc
    rw [List.cons_append, splitSepAux,
      if_neg (by rintro rfl; exact h (List.mem_cons_self _ _))]
    rw [ih (fun hm => h (List.mem_cons_of_mem _ hm)) b (c :: acc)]
    simp

/-- A separator-free list splits into itself. -/
theorem splitSep_no_sep (sep : Char) (cs : List Char) (h : sep ∉ cs) :
    splitSep sep cs = [cs] := by
  rw [splitSep, splitSepAux_no_sep sep cs h []]
  simp

/-- Splitting after one separator-free token is compositional. -/
theorem splitSep_append (sep : Char) (a : List Char) (ha : sep ∉ a)
    (b : List Char) :
    splitSep sep (a ++ sep :: b) = a :: splitSep sep b := by
  rw [splitSep, splitSepAux_append sep a ha b []]
  simp [splitSep]

/-! ### Structure of the fixed-point rendering -/

/-- The rendering of a natural number is nonempty. -/
theorem natChars_ne_nil (n : ℕ) : natChars n ≠ [] := by
  rw [natChars]
  split_ifs with h
  · simp
  · rw [Ne, List.map_eq_nil_iff, List.reverse_eq_nil_iff]
    exact natDigits_ne_nil n h

/-- The rendering of a natural number is all digit characters. -/
theorem natChars_digits (n : ℕ) : ∀ c ∈ natChars n, isDigitCh c = true := by
  intro c hc
  rw [natChars] at hc
  split_ifs at hc with h
  · rw [List.mem_singleton] at hc
    subst hc
    decide
  · obtain ⟨d, hd, hdc⟩ := List.mem_map.mp hc
    subst hdc
    exact isDigitCh_digitChar d (natDigits_lt n d (List.mem_reverse.mp hd))

/-- Zero-padding preserves the all-digit property. -/
theorem padZeros_digits (k : ℕ) (cs : List Char)
    (h : ∀ c ∈ cs, isDigitCh c = true) :
    ∀ c ∈ padZeros k cs, isDigitCh c = true := by
  intro c hc
  rw [padZeros] at hc
  rcases List.mem_append.mp hc with h1 | h2
  · rw [List.eq_of_mem_replicate h1]
    decide
  · exact h c h2

/-- Zero-padding a short list reaches the requested length. -/
theorem padZeros_length (k : ℕ) (cs : List Char) (h : cs.length ≤ k) :
    (padZeros k cs).length = k := by
  simp only [padZeros, List.length_append, List.length_replicate]
  omega

/-- The fractional digit block of the fixed-point rendering is all digits. -/
theorem fixed10_frac_digits (F : ℕ) :
    ∀ c ∈ padZeros 10 ((natDigits F).reverse.map digitChar), isDigitCh c = true := by
  refine padZeros_digits 10 _ ?_
  intro c hc
  obtain ⟨d, hd, hdc⟩ := List.mem_map.mp hc
  subst hdc
  exact isDigitCh_digitChar d (natDigits_lt F d (List.mem_reverse.mp hd))

/-- The fractional digit block of the fixed-point rendering has width 10. -/
theorem fixed10_frac_length (F : ℕ) (hF : F < 10 ^ 10) :
    (padZeros 10 ((natDigits F).reverse.map digitChar)).length = 10 := by
  refine padZeros_length 10 _ ?_
  rw [List.length_map, List.length_reverse]
  exact natDigits_length F 10 hF

/-- Parsing the zero-padded fractional block recovers its value. -/
theorem parseNat_padZeros (F : ℕ) (hF : F < 10 ^ 10) :
    parseNat (padZeros 10 ((natDigits F).reverse.map digitChar)) = some F := by
  rw [parseNat]
  have hlen := fixed10_frac_length F hF
  rw [if_neg (by
    intro hem
    rw [List.isEmpty_iff] at hem
    rw [hem] at hlen
    simp at hlen)]
  rw [padZeros, parseNatAux_replicate_zero]
  exact parseNatAux_revDigits F

/-- Parsing the unsigned fixed-point body recovers integer and fractional
parts exactly. -/
theorem parseUnsignedDecimal_fixed (I F : ℕ) (hF : F < 10 ^ 10) :
    parseUnsignedDecimal
        (natChars I ++ '.' :: padZeros 10 ((natDigits F).reverse.map digitChar))
      = some ((I : ℚ) + (F : ℚ) / 10 ^ 10) := by
  have hdotInt : '.' ∉ natChars I := by
    intro hm
    exact absurd rfl (isDigitCh_ne_special _ (natChars_digits I _ hm)).1
  have hdotFrac : '.' ∉ padZeros 10 ((natDigits F).reverse.map digitChar) := by
    intro hm
    exact absurd rfl (isDigitCh_ne_special _ (fixed10_frac_digits F _ hm)).1
  rw [parseUnsignedDecimal]
  rw [splitSep_append '.' _ hdotInt, splitSep_no_sep '.' _ hdotFrac]
  simp only [parseNat_natChars, parseNat_padZeros F hF, Option.some_bind,
    fixed10_frac_length F hF]
  simp

/-- A list headed by a digit parses as an unsigned decimal. -/
theorem parseDecimal_of_digit_head (c0 : Char) (rest : List Char)
    (hd : isDigitCh c0 = true) :
    parseDecimal (c0 :: rest) = parseUnsignedDecimal (c0 :: rest) := by
  rw [parseDecimal, if_neg]
  intro hh
  rw [List.head?_cons, Option.some.injEq] at hh
  exact (isDigitCh_ne_special c0 hd).2.2 hh

/-- Parsing the fixed-point rendering of `q` recovers exactly the rounded
value `rnd10 q`. -/
theorem parseDecimal_fixed10Chars (q : ℚ) :
    parseDecimal (fixed10Chars q) = some (rnd10 q) := by
  have hmod : (rnd10Int q).natAbs % 10 ^ 10 < 10 ^ 10 := Nat.mod_lt _ (by norm_num)
  have hsplit : (rnd10Int q).natAbs
      = 10 ^ 10 * ((rnd10Int q).natAbs / 10 ^ 10) + (rnd10Int q).natAbs % 10 ^ 10 :=
    (Nat.div_add_mod _ _).symm
  rw [fixed10Chars]
  by_cases hneg : rnd10Int q < 0
  · rw [if_pos hneg, List.singleton_append, List.cons_append, parseDecimal,
      if_pos (by rw [List.head?_cons])]
    rw [List.tail_cons, parseUnsignedDecimal_fixed _ _ hmod, Option.map_some']
    congr 1
    rw [rnd10]
    have hcast : ((rnd10Int q).natAbs : ℚ) = -(rnd10Int q : ℚ) := by
      rw [Int.cast_natAbs, abs_of_neg hneg, Int.cast_neg]
    have hval : (((rnd10Int q).natAbs / 10 ^ 10 : ℕ) : ℚ)
        + (((rnd10Int q).natAbs % 10 ^ 10 : ℕ) : ℚ) / 10 ^ 10
        = ((rnd10Int q).natAbs : ℚ) / 10 ^ 10 := by
      rw [show (((rnd10Int q).natAbs : ℕ) : ℚ)
          = ((10 ^ 10 * ((rnd10Int q).natAbs / 10 ^ 10)
              + (rnd10Int q).natAbs % 10 ^ 10 : ℕ) : ℚ) from congrArg _ hsplit]
      push_cast
      field_simp
      ring
    rw [hval, hcast]
    ring
  · rw [if_neg hneg, List.nil_append]
    obtain ⟨c0, rest0, hc⟩ := List.exists_cons_of_ne_nil
      (natChars_ne_nil ((rnd10Int q).natAbs / 10 ^ 10))
    have hc0 : isDigitCh c0 = true := by
      refine natChars_digits ((rnd10Int q).natAbs / 10 ^ 10) c0 ?_
      rw [hc]
      exact List.mem_cons_self _ _
    rw [show natChars ((rnd10Int q).natAbs / 10 ^ 10)
          ++ '.' :: padZeros 10 ((natDigits ((rnd10Int q).natAbs % 10 ^ 10)).reverse.map digitChar)
        = c0 :: (rest0 ++ '.' :: padZeros 10
            ((natDigits ((rnd10Int q).natAbs % 10 ^ 10)).reverse.map digitChar)) by
      rw [hc, List.cons_append]]
    rw [parseDecimal_of_digit_head c0 _ hc0]
    rw [show c0 :: (rest0 ++ '.' :: padZeros 10
            ((natDigits ((rnd10Int q).natAbs % 10 ^ 10)).reverse.map digitChar))
        = natChars ((rnd10Int q).natAbs / 10 ^ 10)
          ++ '.' :: padZeros 10 ((natDigits ((rnd10Int q).natAbs % 10 ^ 10)).reverse.map digitChar) by
      rw [hc, List.cons_append]]
    rw [parseUnsignedDecimal_fixed _ _ hmod]
    congr 1
    rw [rnd10]
    have hcast : ((rnd10Int q).natAbs : ℚ) = (rnd10Int q : ℚ) := by
      rw [Int.cast_natAbs, abs_of_nonneg (le_of_not_lt hneg)]
    have hval : (((rnd10Int q).natAbs / 10 ^ 10 : ℕ) : ℚ)
        + (((rnd10Int q).natAbs % 10 ^ 10 : ℕ) : ℚ) / 10 ^ 10
        = ((rnd10Int q).natAbs : ℚ) / 10 ^ 10 := by
      rw [show (((rnd10Int q).natAbs : ℕ) : ℚ)
          = ((10 ^ 10 * ((rnd10Int q).natAbs / 10 ^ 10)
              + (rnd10Int q).natAbs % 10 ^ 10 : ℕ) : ℚ) from congrArg _ hsplit]
      push_cast
      field_simp
      ring
    rw [hval, hcast]

/-- The value recorded by 10-decimal fixed-point printing is within
`10⁻⁹` of the original. -/
theorem abs_rnd10_sub_le (q : ℚ) : |rnd10 q - q| ≤ 1 / 10 ^ 9 := by
  have h1 : |(↑(round (q * 10 ^ 10)) : ℚ) - q * 10 ^ 10| ≤ 1 / 2 := by
    rw [abs_sub_comm]
    exact abs_sub_round (q * 10 ^ 10)
  have h2 : rnd10 q - q
      = ((↑(round (q * 10 ^ 10)) : ℚ) - q * 10 ^ 10) / 10 ^ 10 := by
    rw [rnd10, rnd10Int]
    ring
  rw [h2, abs_div, abs_of_pos (show (0 : ℚ) < 10 ^ 10 by norm_num)]
  rw [div_le_iff₀ (show (0 : ℚ) < 10 ^ 10 by norm_num)]
  calc |(↑(round (q * 10 ^ 10)) : ℚ) - q * 10 ^ 10| ≤ 1 / 2 := h1
    _ ≤ 1 / 10 ^ 9 * 10 ^ 10 := by norm_num

/-! ### Parsing an exported per-vertex line -/

/-- Characters of an appended string. -/
theorem str_toList_append (s t : String) : (s ++ t).toList = s.toList ++ t.toList := by
  cases s
  cases t
  rfl

/-- Characters of a string built from a character list. -/
theorem str_toList_mk (cs : List Char) : (String.mk cs).toList = cs := rfl

/-- The fixed-point rendering contains no space. -/
theorem fixed10Chars_no_space (q : ℚ) : ' ' ∉ fixed10Chars q := by
  intro hm
  rw [fixed10Chars] at hm
  rcases List.mem_append.mp hm with h1 | h2
  · rcases List.mem_append.mp h1 with h3 | h4
    · split_ifs at h3
      · rw [List.mem_singleton] at h3
        exact absurd h3 (by decide)
      · exact absurd h3 (List.not_mem_nil _)
    · exact absurd rfl (isDigitCh_ne_special _ (natChars_digits _ _ h4)).2.1
  · rcases List.mem_cons.mp h2 with h5 | h6
    · exact absurd h5 (by decide)
    · exact absurd rfl (isDigitCh_ne_special _ (fixed10_frac_digits _ _ h6)).2.1

/-- The rendering of a natural number contains no space. -/
theorem natChars_no_space (n : ℕ) : ' ' ∉ natChars n := by
  intro hm
  exact absurd rfl (isDigitCh_ne_special _ (natChars_digits n _ hm)).2.1

/-- The characters of one exported per-vertex line. -/
theorem vertexLine_toList (i : ℕ) (pos : Vector3) (dist : ℚ) :
    (vertexLine i pos dist).toList
      = natChars i ++ ' ' :: (fixed10Chars pos.x ++ ' ' :: (fixed10Chars pos.y
        ++ ' ' :: (fixed10Chars pos.z ++ ' ' :: fixed10Chars dist))) := by
  rw [vertexLine]
  simp only [str_toList_append, natStr, fixed10, str_toList_mk]
  have hsp : (" " : String).toList = [' '] := rfl
  rw [hsp]
  simp [List.append_assoc]

/-- Splitting one exported per-vertex line at spaces yields its five
tokens. -/
theorem splitSep_vertexLine (i : ℕ) (pos : Vector3) (dist : ℚ) :
    splitSep ' ' (vertexLine i pos dist).toList
      = [natChars i, fixed10Chars pos.x, fixed10Chars pos.y,
         fixed10Chars pos.z, fixed10Chars dist] := by
  rw [vertexLine_toList]
  rw [splitSep_append ' ' _ (natChars_no_space i),
    splitSep_append ' ' _ (fixed10Chars_no_space pos.x),
    splitSep_append ' ' _ (fixed10Chars_no_space pos.y),
    splitSep_append ' ' _ (fixed10Chars_no_space pos.z),
    splitSep_no_sep ' ' _ (fixed10Chars_no_space dist)]

/-- Parsing one exported per-vertex line recovers the vertex index exactly
and every real to the printed 10-decimal precision. -/
theorem parseVertexLine_vertexLine (i : ℕ) (pos : Vector3) (dist : ℚ) :
    parseVertexLine (vertexLine i pos dist)
      = some (i, rnd10 pos.x, rnd10 pos.y, rnd10 pos.z, rnd10 dist) := by
  rw [parseVertexLine, splitSep_vertexLine]
  simp only [parseVertexTokens, parseNat_natChars, parseDecimal_fixed10Chars,
    Option.some_bind, Option.map_some']

/-- The per-vertex block of the export file: line `7 + i` is the line of
vertex `i`. -/
theorem exportLines_getD_vertex (m : Mesh) (geo : GeometryData) (st : AppState)
    (i : ℕ) (hi : i < m.nVertices) :
    (exportLines m geo st).getD (7 + i) ""
      = vertexLine i (geo.positions.getD i vzero)
        (st.currentGeodesicDistances.getD i 0) := by
  rw [exportLines]
  have hlen : (headerLines st.planeNormal st.planeHeight m.nVertices).length = 7 := rfl
  rw [List.getD_append_right _ _ _ _ (by rw [hlen]; omega)]
  rw [hlen, Nat.add_sub_cancel_left]
  have hmaplen : i < ((List.range m.nVertices).map fun v =>
      vertexLine v (geo.positions.getD v vzero)
        (st.currentGeodesicDistances.getD v 0)).length := by
    simpa using hi
  rw [List.getD_eq_getElem _ _ hmaplen, List.getElem_map]
  rw [List.getElem_range]

/-- C6: re-parsing any per-vertex line of an exported file recovers the
vertex index exactly, and every position coordinate and the distance within
`10⁻⁹` absolute error of the in-memory values. -/
theorem exportLines_roundTrip (m : Mesh) (geo : GeometryData) (st : AppState)
    (i : ℕ) (hi : i < m.nVertices) :
    ∃ x y z dd,
      parseVertexLine ((exportLines m geo st).getD (7 + i) "")
          = some (i, x, y, z, dd) ∧
        |x - (geo.positions.getD i vzero).x| ≤ 1 / 10 ^ 9 ∧
        |y - (geo.positions.getD i vzero).y| ≤ 1 / 10 ^ 9 ∧
        |z - (geo.positions.getD i vzero).z| ≤ 1 / 10 ^ 9 ∧
        |dd - st.currentGeodesicDistances.getD i 0| ≤ 1 / 10 ^ 9 := by
  rw [exportLines_getD_vertex m geo st i hi]
  refine ⟨rnd10 (geo.positions.getD i vzero).x, rnd10 (geo.positions.getD i vzero).y,
    rnd10 (geo.positions.getD i vzero).z, rnd10 (st.currentGeodesicDistances.getD i 0),
    parseVertexLine_vertexLine i _ _, abs_rnd10_sub_le _, abs_rnd10_sub_le _,
    abs_rnd10_sub_le _, abs_rnd10_sub_le _⟩

/-- Witness for C6: the round trip instantiated at vertex 0 of the unit
square's exported distance field. -/
theorem exportLines_roundTrip_witness :
    ∃ x y z dd,
      parseVertexLine ((exportLines sqMesh sqGeo stA).getD (7 + 0) "")
          = some (0, x, y, z, dd) ∧
        |x - (sqGeo.positions.getD 0 vzero).x| ≤ 1 / 10 ^ 9 ∧
        |y - (sqGeo.positions.getD 0 vzero).y| ≤ 1 / 10 ^ 9 ∧
        |z - (sqGeo.positions.getD 0 vzero).z| ≤ 1 / 10 ^ 9 ∧
        |dd - stA.currentGeodesicDistances.getD 0 0| ≤ 1 / 10 ^ 9 :=
  exportLines_roundTrip sqMesh sqGeo stA 0 (by decide)

/-! ### The shape of the export format -/

/-- Stripping the optional sign from the fixed-point rendering leaves the
unsigned body. -/
theorem stripMinus_fixed10Chars (q : ℚ) :
    stripMinus (fixed10Chars q)
      = natChars ((rnd10Int q).natAbs / 10 ^ 10)
        ++ '.' :: padZeros 10
          ((natDigits ((rnd10Int q).natAbs % 10 ^ 10)).reverse.map digitChar) := by
  rw [fixed10Chars]
  by_cases hneg : rnd10Int q < 0
  · rw [if_pos hneg, List.singleton_append, List.cons_append, stripMinus,
      if_pos (by rw [List.head?_cons]), List.tail_cons]
  · rw [if_neg hneg, List.nil_append, stripMinus, if_neg]
    intro hh
    obtain ⟨c0, rest0, hc⟩ := List.exists_cons_of_ne_nil
      (natChars_ne_nil ((rnd10Int q).natAbs / 10 ^ 10))
    rw [hc, List.cons_append, List.head?_cons, Option.some.injEq] at hh
    have hc0 : isDigitCh c0 = true :=
      natChars_digits ((rnd10Int q).natAbs / 10 ^ 10) c0
        (by rw [hc]; exact List.mem_cons_self _ _)
    exact (isDigitCh_ne_special c0 hc0).2.2 hh

/-- Every fixed-point rendering is a (possibly signed) numeral with exactly
10 digits after the decimal point. -/
theorem isFixed10_fixed10 (q : ℚ) : isFixed10 (fixed10 q) = true := by
  have hdotInt : '.' ∉ natChars ((rnd10Int q).natAbs / 10 ^ 10) := by
    intro hm
    exact absurd rfl (isDigitCh_ne_special _ (natChars_digits _ _ hm)).1
  have hdotFrac : '.' ∉ padZeros 10
      ((natDigits ((rnd10Int q).natAbs % 10 ^ 10)).reverse.map digitChar) := by
    intro hm
    exact absurd rfl (isDigitCh_ne_special _ (fixed10_frac_digits _ _ hm)).1
  rw [isFixed10, fixed10, str_toList_mk, isFixed10Chars, stripMinus_fixed10Chars]
  rw [splitSep_append '.' _ hdotInt, splitSep_no_sep '.' _ hdotFrac]
  simp only [Bool.and_eq_true, Bool.not_eq_true', List.all_eq_true, beq_iff_eq]
  refine ⟨⟨⟨?_, ?_⟩, ?_⟩, ?_⟩
  · rw [← Bool.not_eq_true, List.isEmpty_iff]
    exact natChars_ne_nil _
  · intro c hc
    exact natChars_digits _ c hc
  · exact fixed10_frac_length _ (Nat.mod_lt _ (by norm_num))
  · intro c hc
    exact fixed10_frac_digits _ c hc

/-- C5 (amended): the export file is the `#`-prefixed header — title,
plane normal and plane height in the stream's default (6 significant digit)
notation, vertex count, a `#` line, a format line — then a blank separator
line, then exactly one line per vertex `<index> <x> <y> <z> <distance>`
with the index 0-based in traversal order; the per-vertex reals (and only
they) are printed fixed-point with 10 decimal digits. -/
theorem exportLines_format (m : Mesh) (geo : GeometryData) (st : AppState) :
    (exportLines m geo st).length = 7 + m.nVertices ∧
    (exportLines m geo st).getD 0 "" = "# Geodesic distances from plane" ∧
    (exportLines m geo st).getD 1 ""
      = "# Plane normal: " ++ defaultFmt st.planeNormal.x ++ " "
        ++ defaultFmt st.planeNormal.y ++ " " ++ defaultFmt st.planeNormal.z ∧
    (exportLines m geo st).getD 2 ""
      = "# Plane height: " ++ defaultFmt st.planeHeight ∧
    (exportLines m geo st).getD 3 ""
      = "# Number of vertices: " ++ natStr m.nVertices ∧
    (exportLines m geo st).getD 4 "" = "#" ∧
    (exportLines m geo st).getD 5 ""
      = "# Format: vertex_index x y z geodesic_distance" ∧
    (exportLines m geo st).getD 6 "" = "" ∧
    (∀ i, i < m.nVertices →
      (exportLines m geo st).getD (7 + i) ""
        = vertexLine i (geo.positions.getD i vzero)
          (st.currentGeodesicDistances.getD i 0)) ∧
    (∀ q : ℚ, isFixed10 (fixed10 q) = true) := by
  have hlen : (headerLines st.planeNormal st.planeHeight m.nVertices).length = 7 := rfl
  refine ⟨?_, ?_, ?_, ?_, ?_, ?_, ?_, ?_, exportLines_getD_vertex m geo st,
    isFixed10_fixed10⟩
  · rw [exportLines, List.length_append, hlen, List.length_map, List.length_range]
  all_goals
    rw [exportLines, List.getD_append _ _ _ _ (by rw [hlen]; omega)]
    rfl

/-- Evaluation of the exponent estimate at the default plane height's
magnitude. -/
theorem ilog10_pointNine75 : ilog10 ((39 : ℚ) / 40) = -1 := by
  rw [ilog10, if_neg (by norm_num)]
  have hinv : ((39 : ℚ) / 40)⁻¹ = 40 / 39 := by norm_num
  rw [hinv]
  have hfl : ⌊(40 : ℚ) / 39⌋ = 1 := by norm_num [Int.floor_eq_iff]
  rw [hfl]
  rw [show ((1 : ℤ).toNat) = 1 from rfl, show natDigits 1 = [1] from by decide,
    List.length_singleton]
  rw [if_neg (by norm_num)]
  norm_num

/-- Evaluation of the 6-significant-digit rounding at the default plane
height's magnitude. -/
theorem sig6_pointNine75 : sig6 ((39 : ℚ) / 40) = (975000, -1) := by
  rw [sig6, ilog10_pointNine75]
  have hr : round ((39 : ℚ) / 40 * (10 : ℚ) ^ ((5 : ℤ) - (-1))) = 975000 := by
    norm_num [round_eq, Int.floor_eq_iff]
  rw [hr, if_neg (by norm_num)]

/-- The default plane height `-0.975` prints as `-0.975` in the header's
default notation. -/
theorem defaultFmt_height : defaultFmt ((-39 : ℚ) / 40) = "-0.975" := by
  have habs : |(-39 : ℚ) / 40| = 39 / 40 := by
    rw [abs_of_neg (by norm_num)]
    norm_num
  rw [defaultFmt, defaultFmtChars, if_neg (by norm_num), habs, sig6_pointNine75,
    if_pos (by norm_num : (-39 : ℚ) / 40 < 0)]
  decide

/-- The default plane height `-0.975` prints as `-0.9750000000` under the
per-vertex fixed-point format. -/
theorem fixed10_height : fixed10 ((-39 : ℚ) / 40) = "-0.9750000000" := by
  have hr10 : rnd10Int ((-39 : ℚ) / 40) = -9750000000 := by
    rw [rnd10Int]
    norm_num [round_eq, Int.floor_eq_iff]
  rw [fixed10, fixed10Chars, hr10]
  decide

/-- Counterexample to C5 as stated: in a concrete export the plane-height
header line reads `# Plane height: -0.975` — the stream's default
formatting, set before `std::fixed` — and not the 10-decimal fixed-point
numeral `-0.9750000000`, so not every real number in the file is printed
fixed-point with 10 decimal digits. -/
theorem exportLines_header_not_fixed10 :
    (exportLines sqMesh sqGeo stA).getD 2 "" = "# Plane height: -0.975" ∧
      isFixed10 "-0.975" = false ∧
      fixed10 stA.planeHeight = "-0.9750000000" ∧
      (exportLines sqMesh sqGeo stA).getD 2 ""
        ≠ "# Plane height: " ++ fixed10 stA.planeHeight := by
  have hlen : (headerLines stA.planeNormal stA.planeHeight sqMesh.nVertices).length = 7 := rfl
  have hline2 : (exportLines sqMesh sqGeo stA).getD 2 ""
      = "# Plane height: " ++ defaultFmt stA.planeHeight := by
    rw [exportLines, List.getD_append _ _ _ _ (by rw [hlen]; omega)]
    rfl
  have hheight : stA.planeHeight = (-39 : ℚ) / 40 := rfl
  have h1 : (exportLines sqMesh sqGeo stA).getD 2 "" = "# Plane height: -0.975" := by
    rw [hline2, hheight, defaultFmt_height]
    decide
  refine ⟨h1, by decide, ?_, ?_⟩
  · rw [hheight, fixed10_height]
  · rw [h1, hheight, fixed10_height]
    decide

end GeoPlane
